import Mathlib

/-!
# Verification of the spyglass crawl-queue core

Shallow embedding of `crates/entities/src/models/crawl_queue.rs`:
the enqueue / dequeue / retry state machine for crawl tasks.

The database table `crawl_queue` is modelled as a `List Model` kept in
rowid (insertion) order; `indexed_document` as a `List IndexedDocument`.
Timestamps are `Nat`.  The `url` crate's parser and the `regex` crate's
matcher are external collaborators and enter the embedding as explicit
function parameters (`bp` for the fragment-free parser/serializer, `rm`
for regex matching), so theorems hold for every behaviour of those crates.
-/

namespace Spyglass

/-- `CrawlStatus` from crawl_queue.rs (sea_orm string values coincide with
the `Display` impl: "Queued", "Processing", "Completed", "Failed"). -/
inductive CrawlStatus
  | Queued
  | Processing
  | Completed
  | Failed
deriving DecidableEq, Repr

/-- `CrawlType` from crawl_queue.rs. -/
inductive CrawlType
  | Api
  | Bootstrap
  | Normal
deriving DecidableEq, Repr

/-- The sea_orm `string_value` for `CrawlStatus` (on-disk encoding). -/
def statusDb : CrawlStatus → String
  | .Queued => "Queued"
  | .Processing => "Processing"
  | .Completed => "Completed"
  | .Failed => "Failed"

/-- The `Display` impl for `CrawlStatus`; identical to `statusDb`. -/
def statusDisplay : CrawlStatus → String
  | .Queued => "Queued"
  | .Processing => "Processing"
  | .Completed => "Completed"
  | .Failed => "Failed"

/-- The sea_orm `string_value` for `CrawlType`: note "API" for `Api`. -/
def typeDb : CrawlType → String
  | .Api => "API"
  | .Bootstrap => "Bootstrap"
  | .Normal => "Normal"

/-- The `Display` impl for `CrawlType`: note "Api" (differs from the
stored "API"; the two coincide on `Bootstrap` and `Normal`). -/
def typeDisplay : CrawlType → String
  | .Api => "Api"
  | .Bootstrap => "Bootstrap"
  | .Normal => "Normal"

/-- `const MAX_RETRIES: u8 = 5;` -/
def MAX_RETRIES : Nat := 5

/-- A row of the `crawl_queue` table (struct `Model` in crawl_queue.rs). -/
structure Model where
  id : Int
  domain : String
  url : String
  status : CrawlStatus
  num_retries : Nat
  crawl_type : CrawlType
  created_at : Nat
  updated_at : Nat
deriving DecidableEq, Repr

/-- A row of the `indexed_document` table (only the columns the crawl
queue core reads). -/
structure IndexedDocument where
  domain : String
  url : String
deriving DecidableEq, Repr

/-- Modelled from the spec: `shared::config::Limit` (crates/shared is not
under src/). Either `Unlimited` or `Finite(n)` with `n : u32`. -/
inductive Limit
  | Unlimited
  | Finite (n : Nat)
deriving DecidableEq, Repr

/-- Modelled from the spec: `Limit::value()`; the `Unlimited` sentinel is
the largest signed 32-bit integer (spec section 6). -/
def Limit.value : Limit → Nat
  | .Unlimited => 2 ^ 31 - 1
  | .Finite n => n

/-- Modelled from the spec: `shared::config::UserSettings`, the fields the
crawl-queue core consumes. -/
structure UserSettings where
  block_list : List String
  crawl_external_links : Bool
  domain_crawl_limit : Limit
  inflight_domain_limit : Limit
  inflight_crawl_limit : Limit
deriving Repr

/-- Modelled from the spec: `shared::config::Lens`, the fields the
crawl-queue core consumes (ordered domain strings and URL prefixes). -/
structure Lens where
  domains : List String
  urls : List String

/-- `EnqueueSettings` from crawl_queue.rs. -/
structure EnqueueSettings where
  skip_blocklist : Bool
  skip_lenses : Bool
  crawl_type : CrawlType

/-! ## mark_done (retry & completion state machine) -/

/-- The row update performed by `mark_done` once the row is loaded:
if the reported outcome is `Failed` and the stored retry count is
`≤ MAX_RETRIES`, bump `num_retries` and requeue; otherwise store the
reported status.  The `before_save` hook (insert = false) then refreshes
`updated_at`. -/
def markDoneRow (now : Nat) (status : CrawlStatus) (crawl : Model) : Model :=
  let updated :=
    if status = CrawlStatus.Failed ∧ crawl.num_retries ≤ MAX_RETRIES then
      { crawl with
        num_retries := crawl.num_retries + 1
        status := CrawlStatus.Queued }
    else
      { crawl with status := status }
  { updated with updated_at := now }

/-- `mark_done`: look the row up by id (`find_by_id … .one … .unwrap()`);
a missing id makes the `unwrap` panic, modelled as `none`.  Otherwise the
row with that id is replaced by the updated row. -/
def markDone (db : List Model) (id : Int) (status : CrawlStatus) (now : Nat) :
    Option (List Model) :=
  match db.find? (fun r => r.id == id) with
  | none => none
  | some crawl =>
      some (db.map (fun r => if r.id == id then markDoneRow now status crawl else r))

/-! ## SQL LIKE

`reset_processing` filters with sea_orm `contains` (SQL `LIKE
'%Processing%'`) and the dequeue CTE joins with `LIKE`.  SQLite `LIKE` is
case-insensitive on ASCII; `%` matches any sequence, `_` any single
character.  The matcher is written with explicit fuel
(`pattern length + string length + 1` steps always suffice, since every
recursive call shrinks `pattern ++ string`) so that it is structurally
recursive and computable by `decide`. -/

/-- ASCII lower-casing, as SQLite `LIKE` applies to both operands. -/
def lowerC (c : Char) : Char :=
  if 'A' ≤ c ∧ c ≤ 'Z' then Char.ofNat (c.toNat + 32) else c

/-- Fueled SQL `LIKE` matcher on character lists. -/
def likeAux : Nat → List Char → List Char → Bool
  | 0, p, s => p.isEmpty && s.isEmpty
  | fuel + 1, p, s =>
    match p, s with
    | [], rest => rest.isEmpty
    | '%' :: ps, [] => likeAux fuel ps []
    | '%' :: ps, c :: s' => likeAux fuel ps (c :: s') || likeAux fuel ('%' :: ps) s'
    | '_' :: _, [] => false
    | '_' :: ps, _ :: s' => likeAux fuel ps s'
    | _ :: _, [] => false
    | pc :: ps, c :: s' => (lowerC pc == lowerC c) && likeAux fuel ps s'

/-- `s LIKE pat` for SQLite. -/
def likeS (pat s : String) : Bool :=
  likeAux (pat.length + s.length + 1) pat.data s.data

/-! ## reset_processing -/

/-- `reset_processing`: `update_many` sets the `Status` column to
"Queued" on every row whose status `contains` "Processing"
(`LIKE '%Processing%'`).  A query-level `update_many` carries no
`ActiveModel`, so the `before_save` hook does not run and `updated_at`
is left untouched. -/
def resetProcessing (db : List Model) : List Model :=
  db.map (fun r =>
    if likeS "%Processing%" (statusDb r.status) then
      { r with status := CrawlStatus.Queued }
    else r)

/-! ## dequeue -/

/-- Count of rows with status Processing
(`filter(Status.eq("Processing")).count`). -/
def countProcessing (db : List Model) : Nat :=
  (db.filter (fun r => statusDb r.status == statusDisplay CrawlStatus.Processing)).length

/-- Tier A of `dequeue`: with a finite `inflight_crawl_limit`, compare the
Processing count (cast `as u32`, hence reduced mod 2^32) against the
limit and bail out when it is reached. -/
def tierABlocked (db : List Model) (us : UserSettings) : Bool :=
  match us.inflight_crawl_limit with
  | .Finite n => decide (n ≤ countProcessing db % 2 ^ 32)
  | .Unlimited => false

/-- The tier-B filter: `Status.eq("Queued")` and
`CrawlType.eq(CrawlType::Bootstrap.to_string())`. -/
def isBootstrapQueued (r : Model) : Bool :=
  statusDb r.status == statusDisplay CrawlStatus.Queued &&
    typeDb r.crawl_type == typeDisplay CrawlType.Bootstrap

/-- `gen_priority_values(items, false)`: the `p_domain` VALUES rows.
An empty list degenerates to the single sentinel `("", 0)`; otherwise
each item has its `*` wildcards rewritten to `%` and priority 1. -/
def pDomainValues (items : List String) : List (String × Nat) :=
  if items.isEmpty then [("", 0)]
  else items.map (fun item => (item.replace "*" "%", 1))

/-- `gen_priority_values(items, true)`: the `p_prefix` VALUES rows.
An empty list degenerates to `("", 0)`; otherwise each item gets a
trailing `%` (inline wildcards are kept literal) and priority 1. -/
def pPrefixValues (items : List String) : List (String × Nat) :=
  if items.isEmpty then [("", 0)]
  else items.map (fun item => (item ++ "%", 1))

/-- The priority contributed to the ORDER BY by a LEFT JOIN on `LIKE`
against a VALUES table: rank 0 encodes SQL NULL (no pattern matches; NULL
sorts below every number), and a matching row of priority `p` ranks
`p + 1`.  With several matching rows, sorting DESC with LIMIT 1 keeps the
best, i.e. the maximum. -/
def joinRank (vals : List (String × Nat)) (field : String) : Nat :=
  (vals.filterMap (fun v => if likeS v.1 field then some (v.2 + 1) else none)).foldl max 0

/-- `SELECT … FROM indexed_document GROUP BY domain` count for one
domain, with `COALESCE(count, 0)`. -/
def indexedCount (docs : List IndexedDocument) (d : String) : Nat :=
  (docs.filter (fun x => x.domain == d)).length

/-- `… FROM crawl_queue WHERE status = "Processing" GROUP BY domain`
count for one domain, with `COALESCE(count, 0)`. -/
def inflightCount (db : List Model) (d : String) : Nat :=
  (db.filter (fun r => statusDb r.status == "Processing" && r.domain == d)).length

/-- Sort key of a candidate row: `(p_prefix rank, p_domain rank,
updated_at)`; the ORDER BY is prefix rank DESC, domain rank DESC,
updated_at ASC. -/
def tierCKey (pdv plv : List (String × Nat)) (cq : Model) : Nat × Nat × Nat :=
  (joinRank plv cq.url, joinRank pdv cq.domain, cq.updated_at)

/-- `a` sorts strictly before `b` under the ORDER BY. -/
def keyBetter (a b : Nat × Nat × Nat) : Bool :=
  decide (b.1 < a.1) ||
    (a.1 == b.1 && (decide (b.2.1 < a.2.1) || (a.2.1 == b.2.1 && decide (a.2.2 < b.2.2))))

/-- LIMIT 1 after the ORDER BY: scan for the best row, keeping the
earlier row on full ties. -/
def pickBest (key : Model → Nat × Nat × Nat) : Model → List Model → Model
  | cur, [] => cur
  | cur, x :: xs => pickBest key (if keyBetter (key x) (key cur) then x else cur) xs

/-- Tier C of `dequeue`: the raw-SQL statement built by
`gen_priority_sql` around `sql/dequeue.sqlx` (its full text is pinned by
the `test_priority_sql` unit test in crawl_queue.rs).  WHERE keeps Queued
rows whose domain is under both per-domain caps; ORDER BY ranks by
prefix/domain priority then oldest `updated_at`; LIMIT 1. -/
def tierC (db : List Model) (docs : List IndexedDocument) (us : UserSettings)
    (pd pl : List String) : Option Model :=
  let pdv := pDomainValues pd
  let plv := pPrefixValues pl
  let cands := db.filter (fun cq =>
    decide (indexedCount docs cq.domain < us.domain_crawl_limit.value) &&
      decide (inflightCount db cq.domain < us.inflight_domain_limit.value) &&
      statusDb cq.status == "Queued")
  match cands with
  | [] => none
  | c :: cs => some (pickBest (tierCKey pdv plv) c cs)

/-- `dequeue`: tier A (global inflight admission), then tier B (first
Queued Bootstrap row — the query has no ORDER BY, so the scan returns the
first match in rowid order), then the tier-C prioritized statement. -/
def dequeue (db : List Model) (docs : List IndexedDocument) (us : UserSettings)
    (pd pl : List String) : Option Model :=
  if tierABlocked db us then none
  else
    match db.find? isBootstrapQueued with
    | some task => some task
    | none => tierC db docs us pd pl

/-! ## enqueue_all

URL handling: `Url::parse(url)` followed by `parsed.set_fragment(None)`
and re-serialization.  The fragment is everything from the first `#` on
and is independent of the rest of the parse, so the composite
“parse, drop fragment, serialize” is embedded as an arbitrary fragment-free
parser `bp` applied to the string truncated at its first `#`.
`bp s = some ⟨host, serialized⟩` models a successful parse with a host;
`bp s = none` models a parse failure or a URL without a host (both are
skipped).  Lens regexes are produced by `crate::regex::regex_for_domain` /
`regex_for_prefix` (passed in as `rfd` / `rfp`) and evaluated by the
`regex` crate's `RegexSet`, whose per-pattern matcher is passed in as
`rm`. -/

/-- Result of `url::Url` parsing and re-serialization (fragment already
cleared): the host string and the normalized serialization. -/
structure ParsedUrl where
  host : String
  serialized : String
deriving DecidableEq, Repr

/-- Truncate a string at its first `#` (the effect of
`set_fragment(None)` on the serialization). -/
def stripFragment (s : String) : String :=
  ⟨s.data.takeWhile (fun c => c != '#')⟩

/-- `Url::parse` + `set_fragment(None)` + host extraction/serialization,
for a given fragment-free parser `bp`. -/
def normalizeUrl (bp : String → Option ParsedUrl) (s : String) : Option ParsedUrl :=
  bp (stripFragment s)

/-- The `allow_list` of regex patterns: for each lens, one pattern per
domain then one per URL prefix rule. -/
def allowPatterns (rfd rfp : String → String) (lenses : List Lens) : List String :=
  (lenses.map (fun l => l.domains.map rfd ++ l.urls.map rfp)).flatten

/-- The per-URL body of the `filter_map` in `enqueue_all`: parse and
normalize, drop blocklisted hosts (unless `skip_blocklist`), drop URLs
not matched by the lens regex-set (unless `skip_lenses` or
`crawl_external_links`), and keep the normalized serialization. -/
def admitUrl (bp : String → Option ParsedUrl) (pats : List String)
    (rm : String → String → Bool) (us : UserSettings) (es : EnqueueSettings)
    (url : String) : Option String :=
  match normalizeUrl bp url with
  | none => none
  | some pu =>
      if !es.skip_blocklist && us.block_list.contains pu.host then none
      else if !es.skip_lenses && !us.crawl_external_links &&
          !(pats.any (fun p => rm p pu.serialized)) then none
      else some pu.serialized

/-- The normalized, admitted URLs of a batch (the `urls` vector after the
`filter_map`). -/
def admitted (bp : String → Option ParsedUrl) (rm : String → String → Bool)
    (rfd rfp : String → String) (urls : List String) (lenses : List Lens)
    (us : UserSettings) (es : EnqueueSettings) : List String :=
  urls.filterMap (admitUrl bp (allowPatterns rfd rfp lenses) rm us es)

/-- The duplicate gate: drop URLs already present in the crawl queue
(any status) or in the indexed-document table (`is_queued` and
`is_indexed` sets in `enqueue_all`). -/
def survivors (db : List Model) (docs : List IndexedDocument)
    (filtered : List String) : List String :=
  let isQueued := (db.filter (fun r => filtered.contains r.url)).map (fun r => r.url)
  let isIndexed := (docs.filter (fun d => filtered.contains d.url)).map (fun d => d.url)
  filtered.filter (fun u => !(isQueued.contains u) && !(isIndexed.contains u))

/-- The `ActiveModel` built for one survivor URL.  `enqueue_all` uses
`..Default::default()`, so status/num_retries/timestamps come from the
table defaults (Queued, 0, current time — behaviour pinned by the
`test_enqueue`/`test_dequeue` unit tests). -/
def newRow (es : EnqueueSettings) (now : Nat) (pu : ParsedUrl) (u : String) : Model :=
  { id := 0
    domain := pu.host
    url := u
    status := CrawlStatus.Queued
    num_retries := 0
    crawl_type := es.crawl_type
    created_at := now
    updated_at := now }

/-- The `to_add` vector: each survivor URL is re-parsed
(`Url::parse(&url).unwrap()` — a failing re-parse panics, modelled as
`none`) and turned into a row. -/
def buildRows (bp : String → Option ParsedUrl) (es : EnqueueSettings) (now : Nat) :
    List String → Option (List Model)
  | [] => some []
  | u :: us =>
    match normalizeUrl bp u, buildRows bp es now us with
    | some pu, some rest => some (newRow es now pu u :: rest)
    | _, _ => none

/-- Autoincrement primary keys for a batch insert. -/
def assignIds (nextId : Int) : List Model → List Model
  | [] => []
  | r :: rs => { r with id := nextId } :: assignIds (nextId + 1) rs

/-- The unique constraint on `url`: a batch insert violates it when the
new urls repeat each other or collide with a url already in the table. -/
def insertConflict (dbUrls newUrls : List String) : Bool :=
  !(decide newUrls.Nodup) || newUrls.any (fun u => dbUrls.contains u)

/-- The tail of `enqueue_all` once the survivor URLs are known: build
the `to_add` rows, return early when empty, then `insert_many`.  The
insert carries no ON CONFLICT clause, so a unique-constraint violation
makes SQLite abort the whole statement; the error is logged and swallowed
(`Err(e) => log::error!…`), leaving the table unchanged and the function
returning Ok. -/
def insertPhase (bp : String → Option ParsedUrl) (es : EnqueueSettings)
    (now : Nat) (nextId : Int) (db : List Model) (S : List String) :
    Option (List Model) :=
  match buildRows bp es now S with
  | none => none
  | some toAdd =>
    if toAdd.isEmpty then some db
    else if insertConflict (db.map (fun r => r.url))
        ((assignIds nextId toAdd).map (fun r => r.url)) then some db
    else some (db ++ assignIds nextId toAdd)

/-- `enqueue_all`: admission filter, duplicate gate, then the insert
phase. -/
def enqueueAll (bp : String → Option ParsedUrl) (rm : String → String → Bool)
    (rfd rfp : String → String) (db : List Model) (docs : List IndexedDocument)
    (urls : List String) (lenses : List Lens) (us : UserSettings)
    (es : EnqueueSettings) (now : Nat) (nextId : Int) : Option (List Model) :=
  insertPhase bp es now nextId db
    (survivors db docs (admitted bp rm rfd rfp urls lenses us es))

/-- Follows the spec's words (sections 4.3 and 5: "conflicting rows are
silently skipped"; "`insert_many` must not abort the batch on a
unique-constraint violation for a single row"): insert the batch row by
row, skipping exactly the rows whose url already occurs. -/
def insertManySpec (db : List Model) (rows : List Model) : List Model :=
  rows.foldl
    (fun acc r => if (acc.map (fun q => q.url)).contains r.url then acc else acc ++ [r])
    db

/-- `enqueue_all` as the spec describes the bulk insert: identical
pipeline, but conflicting rows are skipped individually instead of
aborting the whole insert. -/
def enqueueAllSpec (bp : String → Option ParsedUrl) (rm : String → String → Bool)
    (rfd rfp : String → String) (db : List Model) (docs : List IndexedDocument)
    (urls : List String) (lenses : List Lens) (us : UserSettings)
    (es : EnqueueSettings) (now : Nat) (nextId : Int) : Option (List Model) :=
  match buildRows bp es now (survivors db docs (admitted bp rm rfd rfp urls lenses us es)) with
  | none => none
  | some toAdd =>
    if toAdd.isEmpty then some db
    else some (insertManySpec db (assignIds nextId toAdd))

/-! ## Iterated failure reports -/

/-- `k` successive `mark_done(·, Failed)` reports applied to one row,
the `i`-th at time `nows i`. -/
def iterFail (nows : Nat → Nat) : Nat → Model → Model
  | 0, r => r
  | k + 1, r => iterFail nows k (markDoneRow (nows k) CrawlStatus.Failed r)

/-! ## Shared concrete fixtures -/

/-- A fresh Queued task with `num_retries = 0`. -/
def freshTask : Model :=
  ⟨1, "example.com", "https://example.com/", CrawlStatus.Queued, 0, CrawlType.Normal, 0, 0⟩

/-- A task in Processing (e.g. handed out to a worker). -/
def procRow : Model :=
  ⟨1, "example.com", "https://example.com/a", CrawlStatus.Processing, 0, CrawlType.Normal, 3, 10⟩

/-- A Queued Bootstrap task on host "h". -/
def bootTask : Model :=
  ⟨1, "h", "https://h/", CrawlStatus.Queued, 0, CrawlType.Bootstrap, 0, 0⟩

/-- An indexed document on host "h". -/
def docH : IndexedDocument := ⟨"h", "https://h/x"⟩

/-- Settings with a per-domain crawl cap of 1 and no other caps. -/
def usC3 : UserSettings := ⟨[], false, Limit.Finite 1, Limit.Unlimited, Limit.Unlimited⟩

/-- Settings with no caps at all. -/
def usOpen : UserSettings := ⟨[], false, Limit.Unlimited, Limit.Unlimited, Limit.Unlimited⟩

/-- Settings with a global inflight cap of 1. -/
def usCap : UserSettings := ⟨[], false, Limit.Unlimited, Limit.Unlimited, Limit.Finite 1⟩

/-- Bootstrap task inserted first (id 1), later retried: `updated_at`
refreshed to 100. -/
def boot1 : Model :=
  ⟨1, "h", "https://h/1", CrawlStatus.Queued, 0, CrawlType.Bootstrap, 10, 100⟩

/-- Bootstrap task inserted second (id 2), untouched since: `updated_at`
20 — older by last touch than `boot1`. -/
def boot2 : Model :=
  ⟨2, "h", "https://h/2", CrawlStatus.Queued, 0, CrawlType.Bootstrap, 20, 20⟩

/-- A concrete fragment-free URL parser for witnesses: everything parses
with host "h" and serializes to itself. -/
def bpW : String → Option ParsedUrl := fun s => some ⟨"h", s⟩

/-- A concrete regex matcher for witnesses. -/
def rmW : String → String → Bool := fun _ _ => true

/-- A concrete pattern generator for witnesses. -/
def idS : String → String := fun s => s

/-- Per-batch overrides skipping both blocklist and lenses. -/
def esW : EnqueueSettings := ⟨true, true, CrawlType.Normal⟩

/-- Per-batch overrides with lens admission active. -/
def esNoSkip : EnqueueSettings := ⟨true, false, CrawlType.Normal⟩

/-! ## C1 — retry bound -/

/-- Status of an iterated-failure run: starting from a stored retry count
of at most `MAX_RETRIES + 1`, the row is Failed exactly when the retry
budget has been consumed (or it already was Failed and no report ran). -/
theorem iterFail_failed_iff (nows : Nat → Nat) :
    ∀ (k : Nat) (r : Model), r.num_retries ≤ MAX_RETRIES + 1 →
      ((iterFail nows k r).status = CrawlStatus.Failed ↔
        (MAX_RETRIES + 2 ≤ r.num_retries + k ∨ (k = 0 ∧ r.status = CrawlStatus.Failed))) := by
  intro k
  induction k with
  | zero =>
      intro r hr
      simp only [iterFail]
      constructor
      · intro h
        exact Or.inr ⟨by trivial, h⟩
      · rintro (h | ⟨-, h⟩)
        · omega
        · exact h
  | succ k ih =>
      intro r hr
      simp only [iterFail]
      by_cases hle : r.num_retries ≤ MAX_RETRIES
      · have hstep : markDoneRow (nows k) CrawlStatus.Failed r =
            { r with
              num_retries := r.num_retries + 1
              status := CrawlStatus.Queued
              updated_at := nows k } := by
          simp only [markDoneRow]
          rw [if_pos ⟨by trivial, hle⟩]
        rw [hstep]
        rw [ih _ (by simp [MAX_RETRIES] at hle ⊢; omega)]
        simp only [MAX_RETRIES] at hle ⊢
        constructor
        · rintro (h | ⟨-, h⟩)
          · left; simp at h ⊢; omega
          · exact absurd h (by simp)
        · rintro (h | ⟨h, -⟩)
          · left; simp at h ⊢; omega
          · exact absurd h (by simp)
      · have hstep : markDoneRow (nows k) CrawlStatus.Failed r =
            { r with
              status := CrawlStatus.Failed
              updated_at := nows k } := by
          simp only [markDoneRow]
          rw [if_neg (by intro hco; exact hle hco.2)]
        rw [hstep]
        rw [ih _ (by simpa using hr)]
        simp only [MAX_RETRIES] at hle hr ⊢
        constructor
        · intro _; left; omega
        · intro _
          by_cases hk : k = 0
          · exact Or.inr ⟨hk, by trivial⟩
          · left; omega

/-- C1 counterexample: after `MAX_RETRIES + 1 = 6` calls to
`mark_done(·, Failed)` the fresh task is still Queued with
`num_retries = 6` — not terminal Failed — and a seventh Failed report
occurs before the task becomes terminal Failed (it is that seventh call
that sets the status to Failed).  So at most 6 calls does not suffice:
the code admits 7. -/
theorem c1_counterexample :
    (iterFail (fun i => i + 1) (MAX_RETRIES + 1) freshTask).status = CrawlStatus.Queued ∧
    (iterFail (fun i => i + 1) (MAX_RETRIES + 1) freshTask).num_retries = MAX_RETRIES + 1 ∧
    (iterFail (fun i => i + 1) (MAX_RETRIES + 2) freshTask).status = CrawlStatus.Failed := by
  decide

/-- C1 (amended): starting from a fresh Queued task with
`num_retries = 0`, at most `MAX_RETRIES + 2 = 7` calls to
`mark_done(·, Failed)` can occur before the task is in the terminal
Failed state (the task is Failed after `k` Failed reports iff `k ≥ 7`);
each Failed report with stored `num_retries ≤ MAX_RETRIES` sets the
status to Queued and increments `num_retries` by 1, and a Failed report
with stored `num_retries > MAX_RETRIES` sets the status to Failed. -/
theorem c1_retry_bound (nows : Nat → Nat) (r : Model) (k : Nat)
    (h0 : r.num_retries = 0) (hq : r.status = CrawlStatus.Queued) :
    ((iterFail nows k r).status = CrawlStatus.Failed ↔ MAX_RETRIES + 2 ≤ k) ∧
    (∀ (s : Model) (now : Nat), s.num_retries ≤ MAX_RETRIES →
      markDoneRow now CrawlStatus.Failed s =
        { s with
          num_retries := s.num_retries + 1
          status := CrawlStatus.Queued
          updated_at := now }) ∧
    (∀ (s : Model) (now : Nat), MAX_RETRIES < s.num_retries →
      markDoneRow now CrawlStatus.Failed s = { s with status := CrawlStatus.Failed, updated_at := now }) := by
  refine ⟨?_, ?_, ?_⟩
  · rw [iterFail_failed_iff nows k r (by omega)]
    rw [h0, hq]
    simp
  · intro s now hle
    simp only [markDoneRow]
    rw [if_pos ⟨by trivial, hle⟩]
  · intro s now hgt
    simp only [markDoneRow]
    rw [if_neg (by intro hco; omega)]

/-- Witness for `c1_retry_bound` at the fresh task and `k = 7`. -/
theorem c1_retry_bound_witness :
    (iterFail (fun i => i + 1) 7 freshTask).status = CrawlStatus.Failed :=
  (c1_retry_bound (fun i => i + 1) freshTask 7 rfl rfl).1.mpr (by decide)

/-! ## C6 — global inflight cap -/

/-- C6: if `inflight_crawl_limit = Finite(n)` and the count of Processing
rows is at least `n` (and below the `as u32` truncation bound, as it
always is in practice), `dequeue` returns `None` immediately. -/
theorem c6_global_cap (db : List Model) (docs : List IndexedDocument)
    (us : UserSettings) (pd pl : List String) (n : Nat)
    (hl : us.inflight_crawl_limit = Limit.Finite n)
    (hn : n ≤ countProcessing db)
    (hb : countProcessing db < 2 ^ 32) :
    dequeue db docs us pd pl = none := by
  have hA : tierABlocked db us = true := by
    unfold tierABlocked
    rw [hl]
    simp only [decide_eq_true_eq]
    rw [Nat.mod_eq_of_lt hb]
    exact hn
  simp [dequeue, hA]

/-- Witness for `c6_global_cap`: one Processing row, cap 1. -/
theorem c6_global_cap_witness :
    dequeue [procRow] [] usCap [] [] = none :=
  c6_global_cap [procRow] [] usCap [] [] 1 rfl (by decide) (by decide)

/-! ## C9 — updated_at refresh -/

/-- C9 counterexample: `reset_processing` moves a Processing row back to
Queued but leaves `updated_at` exactly as it was (the bulk `update_many`
sets only the Status column and never runs the `before_save` hook), so
this mutation does not set `updated_at` to the time of the mutation. -/
theorem c9_counterexample :
    resetProcessing [procRow] = [{ procRow with status := CrawlStatus.Queued }] ∧
    procRow.status = CrawlStatus.Processing ∧
    ({ procRow with status := CrawlStatus.Queued } : Model).updated_at = procRow.updated_at := by
  decide

/-- C9 (amended): `updated_at` is refreshed by every `ActiveModel`-level
mutation except insert — in particular `mark_done` stamps the row with
the mutation time — but `reset_processing` is a bulk column update that
sets Processing rows back to Queued while leaving `updated_at` (and every
other field) unchanged. -/
theorem c9_updated_at (r : Model) (now : Nat) (st : CrawlStatus) (db : List Model) :
    (markDoneRow now st r).updated_at = now ∧
    resetProcessing db =
      db.map (fun x =>
        if x.status = CrawlStatus.Processing then { x with status := CrawlStatus.Queued } else x) := by
  constructor
  · simp only [markDoneRow]
  · have l1 : likeS "%Processing%" "Queued" = false := by decide
    have l2 : likeS "%Processing%" "Processing" = true := by decide
    have l3 : likeS "%Processing%" "Completed" = false := by decide
    have l4 : likeS "%Processing%" "Failed" = false := by decide
    unfold resetProcessing
    refine List.map_congr_left ?_
    intro x _
    cases hs : x.status <;> simp [statusDb, l1, l2, l3, l4, hs]

/-! ## C10 — mark_done on a missing id -/

/-- C10: `mark_done(id, outcome)` panics (the `unwrap` of the `find_by_id`
lookup, modelled as `none`) exactly when no row with the given id exists;
when the id names an existing row the call returns normally. -/
theorem c10_mark_done_missing_id (db : List Model) (id : Int) (st : CrawlStatus) (now : Nat) :
    markDone db id st now = none ↔ ∀ r ∈ db, r.id ≠ id := by
  unfold markDone
  cases h : db.find? (fun r => r.id == id) with
  | none =>
      rw [List.find?_eq_none] at h
      simp only [beq_iff_eq] at h
      simpa using h
  | some c =>
      have h0 := List.find?_some h
      have h1 : c.id = id := by simpa using h0
      have h2 : c ∈ db := List.mem_of_find?_eq_some h
      constructor
      · intro hco
        exact Option.noConfusion hco
      · intro hall
        exact absurd h1 (hall c h2)

/-! ## C3 — per-domain crawl cap -/

/-- The row selected by the ORDER BY/LIMIT 1 scan is one of the
candidates. -/
theorem pickBest_mem (key : Model → Nat × Nat × Nat) :
    ∀ (xs : List Model) (cur : Model), pickBest key cur xs ∈ cur :: xs := by
  intro xs
  induction xs with
  | nil => intro cur; simp [pickBest]
  | cons x xs ih =>
      intro cur
      simp only [pickBest]
      rcases List.mem_cons.mp (ih (if keyBetter (key x) (key cur) then x else cur)) with h | h
      · rw [h]
        by_cases hk : keyBetter (key x) (key cur) = true
        · rw [if_pos hk]
          exact List.mem_cons_of_mem _ (List.mem_cons_self _ _)
        · rw [if_neg hk]
          exact List.mem_cons_self _ _
      · exact List.mem_cons_of_mem _ (List.mem_cons_of_mem _ h)

/-- Any row returned by the tier-C statement is a row of the table that
passes the WHERE clause: Queued, and both per-domain caps not reached. -/
theorem tierC_where (db : List Model) (docs : List IndexedDocument) (us : UserSettings)
    (pd pl : List String) (t : Model) (h : tierC db docs us pd pl = some t) :
    t ∈ db ∧
    indexedCount docs t.domain < us.domain_crawl_limit.value ∧
    inflightCount db t.domain < us.inflight_domain_limit.value ∧
    statusDb t.status = "Queued" := by
  unfold tierC at h
  rcases hcands : db.filter (fun cq =>
      decide (indexedCount docs cq.domain < us.domain_crawl_limit.value) &&
        decide (inflightCount db cq.domain < us.inflight_domain_limit.value) &&
        statusDb cq.status == "Queued") with _ | ⟨c, cs⟩
  · rw [hcands] at h
    exact Option.noConfusion h
  · rw [hcands] at h
    have ht : t = pickBest (tierCKey (pDomainValues pd) (pPrefixValues pl)) c cs :=
      (Option.some.injEq _ _ ▸ h).symm
    have hmem : t ∈ c :: cs := ht ▸ pickBest_mem _ cs c
    rw [← hcands] at hmem
    have := List.mem_filter.mp hmem
    rcases this with ⟨hdb, hp⟩
    simp only [Bool.and_eq_true, decide_eq_true_eq, beq_iff_eq] at hp
    exact ⟨hdb, hp.1.1, hp.1.2, hp.2⟩

/-- C3 counterexample: with `domain_crawl_limit = Finite 1` and one
IndexedDocument already present for host "h", `dequeue` still returns a
task on host "h" — the Bootstrap short-circuit runs before the per-domain
cap is consulted, so the cap does not hold "regardless of crawl_type". -/
theorem c3_counterexample :
    usC3.domain_crawl_limit = Limit.Finite 1 ∧
    1 ≤ indexedCount [docH] "h" ∧
    bootTask.domain = "h" ∧
    dequeue [bootTask] [docH] usC3 [] [] = some bootTask := by
  decide

/-- C3 (amended): with `domain_crawl_limit = Finite(k)` and at least `k`
IndexedDocuments already present for host `h`, any task on host `h`
returned by `dequeue` is a Bootstrap task: the tier-C prioritized query
never returns a task on `h` (its WHERE clause enforces the cap), but the
tier-B Bootstrap short-circuit bypasses the per-domain cap. -/
theorem c3_domain_cap (db : List Model) (docs : List IndexedDocument)
    (us : UserSettings) (pd pl : List String) (k : Nat) (h : String) (t : Model)
    (hk : us.domain_crawl_limit = Limit.Finite k)
    (hc : k ≤ indexedCount docs h)
    (hd : dequeue db docs us pd pl = some t)
    (hh : t.domain = h) :
    t.crawl_type = CrawlType.Bootstrap := by
  unfold dequeue at hd
  by_cases hA : tierABlocked db us = true
  · rw [if_pos hA] at hd
    exact Option.noConfusion hd
  · rw [if_neg hA] at hd
    cases hf : db.find? isBootstrapQueued with
    | some task =>
        rw [hf] at hd
        have ht : task = t := Option.some.injEq _ _ ▸ hd
        have hbq := List.find?_some hf
        rw [ht] at hbq
        unfold isBootstrapQueued at hbq
        cases htc : t.crawl_type <;>
          simp [statusDb, statusDisplay, typeDb, typeDisplay, htc] at hbq ⊢
    | none =>
        rw [hf] at hd
        have hw := tierC_where db docs us pd pl t hd
        rw [hk] at hw
        rw [hh] at hw
        simp only [Limit.value] at hw
        omega

/-- Witness for `c3_domain_cap` at the Bootstrap task on the capped
host. -/
theorem c3_domain_cap_witness : bootTask.crawl_type = CrawlType.Bootstrap :=
  c3_domain_cap [bootTask] [docH] usC3 [] [] 1 "h" bootTask rfl (by decide) (by decide) rfl

/-! ## C4 — Bootstrap short-circuit -/

/-- C4 counterexample: two Queued Bootstrap rows; `boot2` is the oldest
by last touch (`updated_at` 20 against 100 — `boot1` was retried after
`boot2` was enqueued), yet `dequeue` returns `boot1`: the Bootstrap query
has no ORDER BY, so it yields the first row in table order, not the
oldest one. -/
theorem c4_counterexample :
    dequeue [boot1, boot2] [] usOpen [] [] = some boot1 ∧
    isBootstrapQueued boot2 = true ∧
    boot2.updated_at < boot1.updated_at := by
  decide

/-- C4 (amended): whenever at least one Queued Bootstrap row exists and
the global inflight cap is not hit, `dequeue` returns the first Queued
Bootstrap row in table order (the query carries no ORDER BY), before
considering any non-Bootstrap work. -/
theorem c4_bootstrap_first (db : List Model) (docs : List IndexedDocument)
    (us : UserSettings) (pd pl : List String) (t : Model)
    (ha : tierABlocked db us = false)
    (hf : db.find? isBootstrapQueued = some t) :
    dequeue db docs us pd pl = some t ∧ isBootstrapQueued t = true := by
  refine ⟨?_, List.find?_some hf⟩
  unfold dequeue
  rw [if_neg (by rw [ha]; exact Bool.false_ne_true), hf]

/-- Witness for `c4_bootstrap_first`: a single Bootstrap row under open
settings. -/
theorem c4_bootstrap_first_witness :
    dequeue [bootTask] [] usOpen [] [] = some bootTask ∧
    isBootstrapQueued bootTask = true :=
  c4_bootstrap_first [bootTask] [] usOpen [] [] bootTask (by decide) (by decide)

/-! ## Enqueue pipeline lemmas -/

/-- The rows built from the survivor URLs carry exactly those URLs. -/
theorem buildRows_urls (bp : String → Option ParsedUrl) (es : EnqueueSettings) (now : Nat) :
    ∀ (S : List String) (t : List Model), buildRows bp es now S = some t →
      t.map (fun r => r.url) = S := by
  intro S
  induction S with
  | nil =>
      intro t h
      simp only [buildRows] at h
      cases h
      rfl
  | cons u us ih =>
      intro t h
      simp only [buildRows] at h
      cases hn : normalizeUrl bp u with
      | none => rw [hn] at h; exact Option.noConfusion h
      | some pu =>
          rw [hn] at h
          cases hr : buildRows bp es now us with
          | none => rw [hr] at h; exact Option.noConfusion h
          | some rest =>
              rw [hr] at h
              cases h
              simp only [List.map_cons]
              rw [ih rest hr]
              rfl

/-- Whether the row construction panics depends only on the parser and
the survivor URLs, not on the insertion time. -/
theorem buildRows_isSome (bp : String → Option ParsedUrl) (es : EnqueueSettings) (now : Nat) :
    ∀ (S : List String),
      (buildRows bp es now S).isSome = true ↔ ∀ u ∈ S, (normalizeUrl bp u).isSome = true := by
  intro S
  induction S with
  | nil => simp [buildRows]
  | cons u us ih =>
      simp only [buildRows]
      cases hn : normalizeUrl bp u with
      | none => simp [hn]
      | some pu =>
          cases hr : buildRows bp es now us with
          | none => simpa [hr, hn] using ih
          | some rest => simp_all [hr, hn]

/-- Assigning autoincrement ids does not change the urls. -/
theorem assignIds_urls : ∀ (n : Int) (t : List Model),
    (assignIds n t).map (fun r => r.url) = t.map (fun r => r.url) := by
  intro n t
  induction t generalizing n with
  | nil => rfl
  | cons r rs ih => simp only [assignIds, List.map_cons, ih]

/-- `contains` is the boolean of membership. -/
theorem contains_false_iff {α : Type _} [BEq α] [LawfulBEq α] (l : List α) (a : α) :
    l.contains a = false ↔ a ∉ l := by
  have hiff : l.contains a = true ↔ a ∈ l := List.elem_iff
  constructor
  · intro h hmem
    rw [hiff.mpr hmem] at h
    exact Bool.noConfusion h
  · intro h
    cases hc : l.contains a with
    | false => rfl
    | true => exact absurd (hiff.mp hc) h

/-- Membership in the duplicate-gate output. -/
theorem mem_survivors (db : List Model) (docs : List IndexedDocument)
    (F : List String) (u : String) :
    u ∈ survivors db docs F ↔
      u ∈ F ∧ u ∉ db.map (fun r => r.url) ∧ u ∉ docs.map (fun d => d.url) := by
  simp only [survivors]
  rw [List.mem_filter]
  simp only [Bool.and_eq_true, Bool.not_eq_true']
  rw [contains_false_iff, contains_false_iff]
  constructor
  · rintro ⟨hF, hq, hi⟩
    refine ⟨hF, ?_, ?_⟩
    · intro hmem
      rcases List.mem_map.mp hmem with ⟨r, hr, hru⟩
      refine hq (List.mem_map.mpr ⟨r, List.mem_filter.mpr ⟨hr, ?_⟩, hru⟩)
      rw [hru]
      exact List.elem_iff.mpr hF
    · intro hmem
      rcases List.mem_map.mp hmem with ⟨d, hd, hdu⟩
      refine hi (List.mem_map.mpr ⟨d, List.mem_filter.mpr ⟨hd, ?_⟩, hdu⟩)
      rw [hdu]
      exact List.elem_iff.mpr hF
  · rintro ⟨hF, hq, hi⟩
    refine ⟨hF, ?_, ?_⟩
    · intro hmem
      rcases List.mem_map.mp hmem with ⟨r, hrf, hru⟩
      exact hq (List.mem_map.mpr ⟨r, (List.mem_filter.mp hrf).1, hru⟩)
    · intro hmem
      rcases List.mem_map.mp hmem with ⟨d, hdf, hdu⟩
      exact hi (List.mem_map.mpr ⟨d, (List.mem_filter.mp hdf).1, hdu⟩)

/-! ## C7 — lens admission with empty lenses -/

/-- With lens admission active and no lenses, every URL is rejected. -/
theorem admitUrl_empty_lenses (bp : String → Option ParsedUrl)
    (rm : String → String → Bool) (us : UserSettings) (es : EnqueueSettings)
    (hl : es.skip_lenses = false) (he : us.crawl_external_links = false) (u : String) :
    admitUrl bp [] rm us es u = none := by
  unfold admitUrl
  split
  · rfl
  · rename_i pu heq
    by_cases hb : (!es.skip_blocklist && us.block_list.contains pu.host) = true
    · rw [if_pos hb]
    · rw [if_neg hb, if_pos (by simp [hl, he])]

/-- C7: with `skip_lenses = false`, `crawl_external_links = false`, and an
empty lens list, `enqueue_all` applied to any batch of URLs inserts zero
rows — the derived regex-set is empty, so no URL matches and every
candidate is rejected. -/
theorem c7_empty_lenses (bp : String → Option ParsedUrl) (rm : String → String → Bool)
    (rfd rfp : String → String) (db : List Model) (docs : List IndexedDocument)
    (urls : List String) (us : UserSettings) (es : EnqueueSettings) (now : Nat) (nid : Int)
    (hl : es.skip_lenses = false) (he : us.crawl_external_links = false) :
    enqueueAll bp rm rfd rfp db docs urls ([] : List Lens) us es now nid = some db := by
  have hpats : allowPatterns rfd rfp ([] : List Lens) = [] := rfl
  have hadm : admitted bp rm rfd rfp urls ([] : List Lens) us es = [] := by
    unfold admitted
    rw [hpats]
    rw [List.filterMap_eq_nil_iff]
    intro u _
    exact admitUrl_empty_lenses bp rm us es hl he u
  unfold enqueueAll
  rw [hadm]
  rfl

/-- Witness for `c7_empty_lenses` on a concrete nonempty batch. -/
theorem c7_empty_lenses_witness :
    enqueueAll bpW rmW idS idS [] [] ["https://h/a"] ([] : List Lens) usOpen esNoSkip 0 1 =
      some [] :=
  c7_empty_lenses bpW rmW idS idS [] [] ["https://h/a"] usOpen esNoSkip 0 1 rfl rfl

/-! ## C8 — fragment invariance -/

/-- `takeWhile` runs through a list all of whose elements satisfy the
predicate. -/
theorem takeWhile_all {α : Type _} (p : α → Bool) :
    ∀ (l : List α), (∀ c ∈ l, p c = true) → List.takeWhile p l = l := by
  intro l
  induction l with
  | nil => intro _; rfl
  | cons c cs ih =>
      intro h
      rw [List.takeWhile_cons_of_pos (h c (List.mem_cons_self c cs))]
      rw [ih (fun a ha => h a (List.mem_cons_of_mem c ha))]

/-- A string without `#` is untouched by fragment stripping. -/
theorem stripFragment_no_hash (u : String) (hu : ('#' : Char) ∉ u.data) :
    stripFragment u = u := by
  unfold stripFragment
  rw [takeWhile_all _ u.data (fun c hc => by
    cases hcc : c == '#' with
    | false => simp [bne, hcc]
    | true => exact absurd (beq_iff_eq.mp hcc ▸ hc) hu)]

/-- Fragment stripping truncates `u#x` back to `u` when `u` itself has
no `#`. -/
theorem stripFragment_hash (u x : String) (hu : ('#' : Char) ∉ u.data) :
    stripFragment (u ++ "#" ++ x) = u := by
  unfold stripFragment
  have hdata : (u ++ "#" ++ x).data = u.data ++ '#' :: x.data := by
    rw [String.data_append, String.data_append]
    rw [show ("#" : String).data = ['#'] from by decide]
    rw [List.append_assoc]
    rfl
  rw [hdata]
  have hall : ∀ c ∈ u.data, (c != '#') = true := fun c hc => by
    cases hcc : c == '#' with
    | false => simp [bne, hcc]
    | true => exact absurd (beq_iff_eq.mp hcc ▸ hc) hu
  rw [List.takeWhile_append]
  rw [takeWhile_all _ u.data hall]
  rw [if_pos rfl]
  rw [List.takeWhile_cons_of_neg (by simp [bne])]
  show String.mk (u.data ++ []) = u
  rw [List.append_nil]

/-- The admitted list of a one-URL batch is unchanged by appending a
fragment: the URL enters the pipeline only through
`parse ∘ set_fragment(None)`. -/
theorem admitted_fragment (bp : String → Option ParsedUrl) (rm : String → String → Bool)
    (rfd rfp : String → String) (lenses : List Lens) (us : UserSettings)
    (es : EnqueueSettings) (u x : String) (hu : ('#' : Char) ∉ u.data) :
    admitted bp rm rfd rfp [u ++ "#" ++ x] lenses us es =
      admitted bp rm rfd rfp [u] lenses us es := by
  have hau : ∀ pats, admitUrl bp pats rm us es (u ++ "#" ++ x) = admitUrl bp pats rm us es u := by
    intro pats
    unfold admitUrl normalizeUrl
    rw [stripFragment_hash u x hu, stripFragment_no_hash u hu]
  unfold admitted
  rw [List.filterMap_cons, List.filterMap_cons, hau]

/-- C8: `enqueue_all(["u#x"])` and `enqueue_all(["u"])` leave the queue
table in the same state — the fragment is cleared before the URL is
re-serialized, so the same normalized URL string is persisted. -/
theorem c8_fragment_invariance (bp : String → Option ParsedUrl)
    (rm : String → String → Bool) (rfd rfp : String → String)
    (db : List Model) (docs : List IndexedDocument) (lenses : List Lens)
    (us : UserSettings) (es : EnqueueSettings) (now : Nat) (nid : Int) (u x : String)
    (hu : ('#' : Char) ∉ u.data) :
    enqueueAll bp rm rfd rfp db docs [u ++ "#" ++ x] lenses us es now nid =
      enqueueAll bp rm rfd rfp db docs [u] lenses us es now nid := by
  unfold enqueueAll
  rw [admitted_fragment bp rm rfd rfp lenses us es u x hu]

/-- Witness for `c8_fragment_invariance` on a concrete URL and
fragment. -/
theorem c8_fragment_invariance_witness :
    enqueueAll bpW rmW idS idS [] [] ["https://h/a" ++ "#" ++ "b"] ([] : List Lens) usOpen esW 0 1 =
      enqueueAll bpW rmW idS idS [] [] ["https://h/a"] ([] : List Lens) usOpen esW 0 1 :=
  c8_fragment_invariance bpW rmW idS idS [] [] [] usOpen esW 0 1 "https://h/a" "b" (by decide)

/-! ## C2 — bulk insert conflict handling -/

/-- No conflict means the new urls are distinct and disjoint from the
table. -/
theorem insertConflict_false (dbUrls newUrls : List String)
    (h : insertConflict dbUrls newUrls = false) :
    newUrls.Nodup ∧ ∀ u ∈ newUrls, u ∉ dbUrls := by
  unfold insertConflict at h
  rw [Bool.or_eq_false_iff] at h
  rcases h with ⟨hnd, hany⟩
  rw [Bool.not_eq_false'] at hnd
  refine ⟨of_decide_eq_true hnd, ?_⟩
  intro u hu hmem
  rw [List.any_eq_false] at hany
  have hfalse : dbUrls.contains u = false := by
    cases hcb : dbUrls.contains u with
    | false => rfl
    | true => exact absurd hcb (hany u hu)
  exact absurd hmem ((contains_false_iff dbUrls u).mp hfalse)

/-- The url multiset after a successful conflict-free insert phase. -/
theorem insertPhase_urls_nodup (bp : String → Option ParsedUrl) (es : EnqueueSettings)
    (now : Nat) (nid : Int) (db : List Model) (S : List String) (db' : List Model)
    (h : insertPhase bp es now nid db S = some db')
    (hnd : (db.map (fun r => r.url)).Nodup) :
    (insertConflict (db.map (fun r => r.url)) S = true → db' = db) ∧
    (db'.map (fun r => r.url)).Nodup := by
  unfold insertPhase at h
  split at h
  · exact Option.noConfusion h
  · rename_i toAdd hb
    · have hurls : (assignIds nid toAdd).map (fun r => r.url) = S := by
        rw [assignIds_urls]
        exact buildRows_urls bp es now S toAdd hb
      by_cases he : toAdd.isEmpty = true
      · rw [if_pos he] at h
        cases h
        exact ⟨fun _ => rfl, hnd⟩
      · rw [if_neg he] at h
        rw [hurls] at h
        by_cases hc : insertConflict (db.map (fun r => r.url)) S = true
        · rw [if_pos hc] at h
          cases h
          exact ⟨fun _ => rfl, hnd⟩
        · rw [if_neg hc] at h
          cases h
          refine ⟨fun hco => absurd hco hc, ?_⟩
          rw [List.map_append, hurls]
          rcases insertConflict_false _ _ (Bool.not_eq_true _ ▸ hc) with ⟨hSnd, hdisj⟩
          exact List.Nodup.append hnd hSnd (fun a ha hs => (hdisj a hs) ha)

/-- C2 counterexample: a batch whose second URL normalizes to the same
string as the first (`…/a#f` → `…/a`) plus an unrelated third URL.  The
real `enqueue_all` inserts **nothing** (the single multi-row INSERT
aborts on the unique-url violation and the error is merely logged); under
the spec's described semantics the conflicting row would be skipped and
the two distinct URLs `…/a` and `…/b` would be inserted. -/
theorem c2_counterexample :
    enqueueAll bpW rmW idS idS [] [] ["https://h/a", "https://h/a#f", "https://h/b"]
        ([] : List Lens) usOpen esW 0 1 = some [] ∧
    enqueueAllSpec bpW rmW idS idS [] [] ["https://h/a", "https://h/a#f", "https://h/b"]
        ([] : List Lens) usOpen esW 0 1 =
      some [⟨1, "h", "https://h/a", CrawlStatus.Queued, 0, CrawlType.Normal, 0, 0⟩,
        ⟨3, "h", "https://h/b", CrawlStatus.Queued, 0, CrawlType.Normal, 0, 0⟩] := by
  decide

/-- C2 (amended): `enqueue_all` never surfaces the unique-constraint
violation (it still returns Ok), but the bulk insert is atomic rather
than row-skipping: whenever the survivor batch conflicts with the unique
constraint on `url`, no row of the batch is inserted and the table is
unchanged; uniqueness of urls is preserved in every case. -/
theorem c2_insert_conflicts (bp : String → Option ParsedUrl) (rm : String → String → Bool)
    (rfd rfp : String → String) (db : List Model) (docs : List IndexedDocument)
    (urls : List String) (lenses : List Lens) (us : UserSettings) (es : EnqueueSettings)
    (now : Nat) (nid : Int) (db' : List Model)
    (h : enqueueAll bp rm rfd rfp db docs urls lenses us es now nid = some db')
    (hnd : (db.map (fun r => r.url)).Nodup) :
    (insertConflict (db.map (fun r => r.url))
        (survivors db docs (admitted bp rm rfd rfp urls lenses us es)) = true → db' = db) ∧
    (db'.map (fun r => r.url)).Nodup := by
  unfold enqueueAll at h
  exact insertPhase_urls_nodup bp es now nid db _ db' h hnd

/-- Witness for `c2_insert_conflicts` on a concrete conflicting batch:
the table stays empty. -/
theorem c2_insert_conflicts_witness :
    (([] : List Model).map (fun r => r.url)).Nodup :=
  (c2_insert_conflicts bpW rmW idS idS [] [] ["https://h/a", "https://h/a#f"]
    ([] : List Lens) usOpen esW 0 1 [] (by decide) (by decide)).2

/-! ## C5 — idempotent enqueue -/

/-- When the duplicate gate leaves no survivor, `enqueue_all` is a
no-op. -/
theorem enqueueAll_no_new (bp : String → Option ParsedUrl) (rm : String → String → Bool)
    (rfd rfp : String → String) (db : List Model) (docs : List IndexedDocument)
    (urls : List String) (lenses : List Lens) (us : UserSettings) (es : EnqueueSettings)
    (now : Nat) (nid : Int)
    (hnil : survivors db docs (admitted bp rm rfd rfp urls lenses us es) = []) :
    enqueueAll bp rm rfd rfp db docs urls lenses us es now nid = some db := by
  unfold enqueueAll
  rw [hnil]
  rfl

/-- Re-running the insert phase on the same survivors when the batch
conflicts is again a logged no-op (at any later time and id). -/
theorem insertPhase_again_conflict (bp : String → Option ParsedUrl) (es : EnqueueSettings)
    (now1 now2 : Nat) (nid2 : Int) (db : List Model) (S : List String) (toAdd : List Model)
    (hb : buildRows bp es now1 S = some toAdd)
    (hc : insertConflict (db.map (fun r => r.url)) S = true) :
    insertPhase bp es now2 nid2 db S = some db := by
  have h1 : (buildRows bp es now1 S).isSome = true := by rw [hb]; rfl
  have h2 : (buildRows bp es now2 S).isSome = true :=
    (buildRows_isSome bp es now2 S).mpr ((buildRows_isSome bp es now1 S).mp h1)
  obtain ⟨t2, ht2⟩ := Option.isSome_iff_exists.mp h2
  have hurl2 : t2.map (fun r => r.url) = S := buildRows_urls bp es now2 S t2 ht2
  have hSne : S ≠ [] := by
    intro hSnil
    rw [hSnil] at hc
    simp [insertConflict] at hc
  have hne : t2.isEmpty = false := by
    cases t2 with
    | nil =>
        exfalso
        apply hSne
        simpa using hurl2.symm
    | cons a as => rfl
  unfold insertPhase
  simp only [ht2]
  rw [if_neg (by rw [hne]; exact Bool.false_ne_true)]
  rw [assignIds_urls, hurl2]
  rw [if_pos hc]

/-- C5: `enqueue_all` is idempotent — with fixed lenses, settings and
overrides, a second run on the resulting table is a no-op (at any later
time and next id), and uniqueness of urls is preserved throughout. -/
theorem c5_idempotent (bp : String → Option ParsedUrl) (rm : String → String → Bool)
    (rfd rfp : String → String) (db : List Model) (docs : List IndexedDocument)
    (urls : List String) (lenses : List Lens) (us : UserSettings) (es : EnqueueSettings)
    (now1 : Nat) (nid1 : Int) (now2 : Nat) (nid2 : Int) (db' : List Model)
    (hnd : (db.map (fun r => r.url)).Nodup)
    (h1 : enqueueAll bp rm rfd rfp db docs urls lenses us es now1 nid1 = some db') :
    enqueueAll bp rm rfd rfp db' docs urls lenses us es now2 nid2 = some db' ∧
    (db'.map (fun r => r.url)).Nodup := by
  have h1' : insertPhase bp es now1 nid1 db
      (survivors db docs (admitted bp rm rfd rfp urls lenses us es)) = some db' := h1
  unfold insertPhase at h1'
  split at h1'
  · exact Option.noConfusion h1'
  · rename_i toAdd hb
    have hurls : (assignIds nid1 toAdd).map (fun r => r.url) =
        survivors db docs (admitted bp rm rfd rfp urls lenses us es) := by
      rw [assignIds_urls]
      exact buildRows_urls bp es now1 _ toAdd hb
    by_cases he : toAdd.isEmpty = true
    · rw [if_pos he] at h1'
      cases h1'
      have htnil : toAdd = [] := by
        cases toAdd with
        | nil => rfl
        | cons a as => simp at he
      have hSnil : survivors db docs (admitted bp rm rfd rfp urls lenses us es) = [] := by
        rw [htnil] at hb
        have hmap := buildRows_urls bp es now1 _ [] hb
        simpa using hmap.symm
      exact ⟨enqueueAll_no_new bp rm rfd rfp db docs urls lenses us es now2 nid2 hSnil, hnd⟩
    · rw [if_neg he] at h1'
      rw [hurls] at h1'
      by_cases hc : insertConflict (db.map (fun r => r.url))
          (survivors db docs (admitted bp rm rfd rfp urls lenses us es)) = true
      · rw [if_pos hc] at h1'
        cases h1'
        exact ⟨insertPhase_again_conflict bp es now1 now2 nid2 db _ toAdd hb hc, hnd⟩
      · rw [if_neg hc] at h1'
        cases h1'
        have hnodup : ((db ++ assignIds nid1 toAdd).map (fun r => r.url)).Nodup := by
          rw [List.map_append, hurls]
          rcases insertConflict_false _ _ (Bool.not_eq_true _ ▸ hc) with ⟨hSnd, hdisj⟩
          exact List.Nodup.append hnd hSnd (fun a ha hs => (hdisj a hs) ha)
        refine ⟨?_, hnodup⟩
        apply enqueueAll_no_new
        rw [List.eq_nil_iff_forall_not_mem]
        intro u hu
        rw [mem_survivors] at hu
        rcases hu with ⟨hF, hq, hi⟩
        rw [List.map_append, hurls] at hq
        have hq1 : u ∉ db.map (fun r => r.url) := fun hmem =>
          hq (List.mem_append.mpr (Or.inl hmem))
        have hq2 : u ∉ survivors db docs (admitted bp rm rfd rfp urls lenses us es) :=
          fun hmem => hq (List.mem_append.mpr (Or.inr hmem))
        exact hq2 ((mem_survivors db docs _ u).mpr ⟨hF, hq1, hi⟩)

/-- Witness for `c5_idempotent`: a second run after a successful insert
of one URL, at a later time and different next id. -/
theorem c5_idempotent_witness :
    enqueueAll bpW rmW idS idS
        [⟨1, "h", "u", CrawlStatus.Queued, 0, CrawlType.Normal, 0, 0⟩] [] ["u"]
        ([] : List Lens) usOpen esW 5 7 =
      some [⟨1, "h", "u", CrawlStatus.Queued, 0, CrawlType.Normal, 0, 0⟩] ∧
    (([⟨1, "h", "u", CrawlStatus.Queued, 0, CrawlType.Normal, 0, 0⟩] : List Model).map
      (fun r => r.url)).Nodup :=
  c5_idempotent bpW rmW idS idS [] [] ["u"] ([] : List Lens) usOpen esW 0 1 5 7
    [⟨1, "h", "u", CrawlStatus.Queued, 0, CrawlType.Normal, 0, 0⟩] (by decide) (by decide)

end Spyglass
